import Mathlib

/-!
Verification of the mp4writer sample-table model: a shallow embedding of the
muxer-side sample accumulator (`MP4PushEncoderMuxer.ts`) and the demuxer-side
sample indexing, seek-window and bulk-fetch algorithms (`MP4PullDemuxer.ts`),
with theorems settling the frozen specification claims.

Conventions of the embedding:
- Timestamps and durations computed in milliseconds are represented exactly as
  rationals (the source computes them with JS number arithmetic; the claims
  under study are about exact boundary values, which the rational model states
  exactly).
- JS `Array.prototype.toSorted` is a stable comparison sort; it is embedded as
  `List.insertionSort`, which Mathlib demonstrates to be stable. No property
  proved below depends on the order of ties.
- Fallible code is embedded in `Except String`; a thrown `Error` is an
  `Except.error` carrying the message.
- Sample payload bytes are not modelled; `mp4box.getSample` is abstracted as
  returning the sample's own (already indexed) metadata, and the byte range a
  bulk fetch reads is returned explicitly as an `Option (Nat × Nat)` (with
  `none` meaning no read was issued).
-/

set_option allowUnsafeReducibility true
attribute [semireducible] Rat.mul Rat.sub Rat.inv Rat.add

deriving instance DecidableEq for Except

namespace MP4Writer

/-- Modelled from the spec: `time.ts` is not under `src/` (only its callers
are); the spec describes it as pure unit-conversion utilities
(seconds↔milliseconds↔microseconds). Seconds to milliseconds. -/
def secToMs (s : ℚ) : ℚ := s * 1000

/-- Modelled from the spec: milliseconds to seconds (see `secToMs`). -/
def msToSec (ms : ℚ) : ℚ := ms / 1000

/-- Modelled from the spec: seconds to microseconds (see `secToMs`). -/
def secToUs (s : ℚ) : ℚ := s * 1000000

/-- Modelled from the spec: microseconds to seconds (see `secToMs`). -/
def usToSec (us : ℚ) : ℚ := us / 1000000

/-- An mp4box.js sample as consumed by `MP4PullDemuxer` (`MP4Sample` in
`lib/mp4box.d.ts`): decode position `number`, composition timestamp `cts`,
decode timestamp `dts`, `duration` and `timescale` in track timescale units,
sync-sample flag `is_sync`, and the payload's byte `offset` and `size` in the
file. Payload bytes themselves are not modelled. -/
structure MP4Sample where
  number : Nat
  cts : Int
  dts : Int
  duration : Nat
  timescale : Nat
  is_sync : Bool
  offset : Nat
  size : Nat
  deriving DecidableEq, Inhabited

/-- `IndexedMP4Sample` from `MP4PullDemuxer.ts`: an `MP4Sample` plus its
presentation-order index `ptsIndex` and decode-order index `dtsIndex`. -/
structure IndexedMP4Sample extends MP4Sample where
  ptsIndex : Nat
  dtsIndex : Nat
  deriving DecidableEq, Inhabited

/-- The demuxer's `VideoDecoderConfig` result, with the payload `description`
abstracted away (its bytes come from the external box library). -/
structure VideoDecoderConfig where
  codec : String
  codedWidth : Nat
  codedHeight : Nat
  deriving DecidableEq, Inhabited

/-- `MIN_DECODER_QUEUE_SIZE` from `MP4PullDemuxer.ts`. -/
def MIN_DECODER_QUEUE_SIZE : Nat := 20

/-- The mutable state of an `MP4PullDemuxer` instance after construction:
the indexed video samples, whether `videoTrak` was resolved, the
offset-correction constant `firstFramePtsOffsetMs`, the `_error` slot written
by `_trapError`, and the resolved decoder config (if any). -/
structure DemuxState where
  videoSamples : List IndexedMP4Sample
  videoTrak : Bool
  firstFramePtsOffsetMs : ℚ
  errorTrapped : Option String
  videoDecoderConfig : Option VideoDecoderConfig

/-- The offset-corrected presentation start of a sample in milliseconds:
`secToMs(sample.cts / timescale) - firstFramePtsOffsetMs`
(`timestampMsToPtsIndex`, `MP4PullDemuxer.ts` line 300). -/
def ctsMsOf (off : ℚ) (s : IndexedMP4Sample) : ℚ :=
  secToMs ((s.cts : ℚ) / (s.timescale : ℚ)) - off

/-- A sample's duration in milliseconds (`MP4PullDemuxer.ts` line 301). -/
def durationMsOf (s : IndexedMP4Sample) : ℚ :=
  secToMs ((s.duration : ℚ) / (s.timescale : ℚ))

/-- The loop body of `timestampMsToPtsIndex` (`MP4PullDemuxer.ts` lines
298-304): walk the PTS-ordered sample list and return the `ptsIndex` of the
first sample with `ctsMs <= t && ctsMs + durationMs >= t`, or `-1`. -/
def timestampLoop (off t : ℚ) : List IndexedMP4Sample → Int
  | [] => -1
  | s :: rest =>
    if ctsMsOf off s ≤ t ∧ ctsMsOf off s + durationMsOf s ≥ t then (s.ptsIndex : Int)
    else timestampLoop off t rest

/-- `MP4PullDemuxer.timestampMsToPtsIndex`. -/
def DemuxState.timestampMsToPtsIndex (st : DemuxState) (timestampMs : ℚ) : Int :=
  timestampLoop st.firstFramePtsOffsetMs timestampMs st.videoSamples

/-- The containment test the source's loop applies: the closed interval
`[ctsMs, ctsMs + durationMs]` contains `t`. -/
def containsClosed (off t : ℚ) (s : IndexedMP4Sample) : Prop :=
  ctsMsOf off s ≤ t ∧ ctsMsOf off s + durationMsOf s ≥ t

instance (off t : ℚ) : DecidablePred (containsClosed off t) := fun _ =>
  inferInstanceAs (Decidable (_ ∧ _))

/-- The containment test the spec ascribes to the lookup: the half-open
interval `[ctsMs, ctsMs + durationMs)` contains `t`. Stated from the spec's
words, for comparison against `containsClosed` which the source implements. -/
def containsHalfOpen (off t : ℚ) (s : IndexedMP4Sample) : Prop :=
  ctsMsOf off s ≤ t ∧ t < ctsMsOf off s + durationMsOf s

instance (off t : ℚ) : DecidablePred (containsHalfOpen off t) := fun _ =>
  inferInstanceAs (Decidable (_ ∧ _))

/-- Ordering of samples by file byte offset, as in `bulkFetchSampleData`'s
first `toSorted` comparator `(a, b) => a.offset - b.offset`. -/
def byOffset (a b : IndexedMP4Sample) : Prop := a.offset ≤ b.offset

instance : DecidableRel byOffset := fun a b =>
  inferInstanceAs (Decidable (a.offset ≤ b.offset))

/-- Ordering of samples by decode timestamp, as in `bulkFetchSampleData`'s
second `toSorted` comparator `(a, b) => a.dts - b.dts`. -/
def byDts (a b : IndexedMP4Sample) : Prop := a.dts ≤ b.dts

instance : DecidableRel byDts := fun a b =>
  inferInstanceAs (Decidable (a.dts ≤ b.dts))

/-- `MP4PullDemuxer.fetchSampleData`: throws when `videoTrak` is not loaded;
otherwise merges the indexed sample with the mp4box sample at its `dtsIndex`
(payload population; abstracted here as the sample's own metadata). -/
def DemuxState.fetchSampleData (st : DemuxState) (indexedSample : IndexedMP4Sample) :
    Except String IndexedMP4Sample :=
  if st.videoTrak then Except.ok indexedSample
  else Except.error ("videoTrak not loaded")

/-- `MP4PullDemuxer.bulkFetchSampleData` (lines 155-169): an empty input
returns `[]` with no read (`none`); otherwise the input is sorted by offset,
one contiguous byte range from the first sorted sample's offset to the last
sorted sample's `offset + size` is read (returned here as `some range`), and
the input re-sorted by `dts` is passed through `fetchSampleData`. -/
def DemuxState.bulkFetchSampleData (st : DemuxState) (samples : List IndexedMP4Sample) :
    Except String (Option (Nat × Nat) × List IndexedMP4Sample) :=
  match samples with
  | [] => Except.ok (none, [])
  | s :: rest =>
    let resorted := List.insertionSort byOffset (s :: rest)
    let startOffset := (resorted.headD default).offset
    let lastSorted := resorted.getLastD default
    let endOffset := lastSorted.offset + lastSorted.size
    (((s :: rest).insertionSort byDts).mapM st.fetchSampleData).map
      (fun fetched => (some (startOffset, endOffset), fetched))

/-- The `SeekReturn` shape of `MP4PullDemuxer.seek`. -/
structure SeekReturn where
  ptsIndex : Int
  dtsIndex : Int
  samples : List IndexedMP4Sample
  deriving DecidableEq, Inhabited

/-- `MP4PullDemuxer.seek` (lines 232-269). Mirrors the source line by line:
throws when no samples were extracted; returns a plain empty result when
`timestampMsToPtsIndex` finds no sample; for a sync target returns the window
`slice(max(0, i - ceil(Q/2)), min(start + Q, length - 1))`; otherwise finds
the last keyframe before and first keyframe from the target, throws when no
preceding keyframe exists, and returns
`slice(lastKeyframe, min(max(nextKeyframe ?? 0, target, lastKeyframe + Q), length - 1))`.
`Nat` subtraction clamps at zero exactly like the source's `Math.max(0, ..)`;
`findLast` is embedded as the last element of the order-preserving filter.
The windows are fetched through `bulkFetchSampleData`, which re-sorts them by
`dts`. -/
def DemuxState.seek (st : DemuxState) (timestampMs : ℚ) : Except String SeekReturn :=
  if st.videoSamples.length = 0 then
    Except.error ("Seek failed. No video samples have been extracted.")
  else
    let targetFrameIndex := st.timestampMsToPtsIndex timestampMs
    if targetFrameIndex = -1 then
      Except.ok { ptsIndex := -1, dtsIndex := -1, samples := [] }
    else
      let frame := st.videoSamples.getD targetFrameIndex.toNat default
      if frame.is_sync then
        let startIndex := targetFrameIndex.toNat - (MIN_DECODER_QUEUE_SIZE + 1) / 2
        let endIndex := min (startIndex + MIN_DECODER_QUEUE_SIZE) (st.videoSamples.length - 1)
        (st.bulkFetchSampleData ((st.videoSamples.drop startIndex).take (endIndex - startIndex))).map
          (fun fetched =>
            { ptsIndex := (frame.ptsIndex : Int), dtsIndex := (frame.dtsIndex : Int),
              samples := fetched.2 })
      else
        let lastKeyframe := ((st.videoSamples.take frame.ptsIndex).filter (fun f => f.is_sync)).getLast?
        let nextKeyframe := (st.videoSamples.drop frame.ptsIndex).find? (fun f => f.is_sync)
        match lastKeyframe with
        | none =>
          Except.error ("Seek failed. No keyframe found before " ++ toString timestampMs ++ "ms.")
        | some lk =>
          let endIndex :=
            min (max (max ((nextKeyframe.map (fun f => f.ptsIndex)).getD 0) frame.ptsIndex)
                  (lk.ptsIndex + MIN_DECODER_QUEUE_SIZE))
              (st.videoSamples.length - 1)
          (st.bulkFetchSampleData ((st.videoSamples.drop lk.ptsIndex).take (endIndex - lk.ptsIndex))).map
            (fun fetched =>
              { ptsIndex := (frame.ptsIndex : Int), dtsIndex := (frame.dtsIndex : Int),
                samples := fetched.2 })

/-- `MP4PullDemuxer.readAllSamples` (lines 275-278): bulk-fetches the whole
sample list. -/
def DemuxState.readAllSamples (st : DemuxState) : Except String (List IndexedMP4Sample) :=
  (st.bulkFetchSampleData st.videoSamples).map (fun fetched => fetched.2)

/-- `MP4PullDemuxer.dtsIndexToPtsIndex` (lines 286-288):
`videoSamples.find(s => s.dtsIndex === dtsIndex)?.ptsIndex ?? -1`. -/
def DemuxState.dtsIndexToPtsIndex (st : DemuxState) (dtsIndex : Nat) : Int :=
  match st.videoSamples.find? (fun s => decide (s.dtsIndex = dtsIndex)) with
  | some s => (s.ptsIndex : Int)
  | none => -1

/-- Modelled from the spec: the inverse mapping `ptsIndexToDtsIndex` is named
by the spec's bijective-indexing invariant but has no counterpart function in
the source; it is the evident counterpart of `dtsIndexToPtsIndex` with the
roles of the two indices exchanged. -/
def DemuxState.ptsIndexToDtsIndex (st : DemuxState) (ptsIndex : Nat) : Int :=
  match st.videoSamples.find? (fun s => decide (s.ptsIndex = ptsIndex)) with
  | some s => (s.dtsIndex : Int)
  | none => -1

/-- `MP4PullDemuxer.getVideoDecoderConfig` (lines 75-85), restricted to its
synchronous prefix: re-throw the trapped error if any; otherwise produce the
cached config (`none` stands for the pending-promise path, whose resolution
waits on external parsing and real time). -/
def DemuxState.getVideoDecoderConfig (st : DemuxState) : Except String (Option VideoDecoderConfig) :=
  match st.errorTrapped with
  | some e => Except.error e
  | none => Except.ok st.videoDecoderConfig

/-- Ordering of mp4box samples by composition timestamp, as in `onReady`'s
`toSorted((a, b) => a.cts - b.cts)`. -/
def byCts (a b : MP4Sample) : Prop := a.cts ≤ b.cts

instance : DecidableRel byCts := fun a b =>
  inferInstanceAs (Decidable (a.cts ≤ b.cts))

/-- The `.map((s, i) => ({ ...s, ptsIndex: i, dtsIndex: s.number }))` step of
`onReady` (line 202), with the running index made explicit. -/
def attachPtsIndexes : Nat → List MP4Sample → List IndexedMP4Sample
  | _, [] => []
  | i, s :: rest =>
    { toMP4Sample := s, ptsIndex := i, dtsIndex := s.number } :: attachPtsIndexes (i + 1) rest

/-- The sample-indexing step of `MP4PullDemuxer.onReady` (lines 200-202):
sort the track's decode-ordered samples by `cts` and attach `ptsIndex`
(position in sorted order) and `dtsIndex` (`s.number`). -/
def indexSamples (samples : List MP4Sample) : List IndexedMP4Sample :=
  attachPtsIndexes 0 (List.insertionSort byCts samples)

/-- The demuxer state established by a successful `onReady` on a track whose
decode-ordered sample list is `trakSamples` (lines 197-215): samples indexed
by `indexSamples`, `firstFramePtsOffsetMs` taken from the first PTS-ordered
sample (line 204). -/
def DemuxState.afterIndexing (trakSamples : List MP4Sample)
    (config : VideoDecoderConfig) : DemuxState :=
  let vs := indexSamples trakSamples
  { videoSamples := vs
    videoTrak := true
    firstFramePtsOffsetMs := secToMs (((vs.headD default).cts : ℚ) / ((vs.headD default).timescale : ℚ))
    errorTrapped := none
    videoDecoderConfig := some config }

/-- A muxer-side accumulated sample (`Sample` in `MP4PushEncoderMuxer.ts`),
with the payload bytes abstracted to their `size` (`data.byteLength`). -/
structure MuxSample where
  number : Nat
  offset : Nat
  dts : Int
  duration : Nat
  sync : Bool
  size : Nat
  deriving DecidableEq, Inhabited

/-- `EMPTY_SAMPLE` from `MP4PushEncoderMuxer.ts` (line 80). -/
def EMPTY_SAMPLE : MuxSample :=
  { number := 0, offset := 0, dts := 0, duration := 0, sync := false, size := 0 }

/-- An encoded chunk as delivered by a WebCodecs encoder output callback:
timestamp (µs), optional duration (µs), key/delta type, payload byte length. -/
structure EncodedChunk where
  timestamp : Int
  duration : Option Nat
  typeKey : Bool
  byteLength : Nat
  deriving DecidableEq, Inhabited

/-- JS `Math.round`: round half toward positive infinity. -/
def jsRound (x : ℚ) : Int := Int.floor (x + 1 / 2)

/-- `MP4PushMuxerEncoder.onEncodedVideoChunk` (lines 477-498), restricted to
its effect on `videoSamples` (the decoder-config record capture is out of the
sample model): append a sample numbered `prev.number + 1` at byte offset
`prev.offset + prev.size`, where `prev` is the last accumulated sample or
`EMPTY_SAMPLE`. -/
def onEncodedVideoChunk (videoOutputTimescale : Nat) (videoSamples : List MuxSample)
    (chunk : EncodedChunk) : List MuxSample :=
  let prev := videoSamples.getLastD EMPTY_SAMPLE
  let dts := jsRound (usToSec (chunk.timestamp : ℚ) * (videoOutputTimescale : ℚ))
  let duration := (jsRound (usToSec ((chunk.duration.getD 0 : Nat) : ℚ) * (videoOutputTimescale : ℚ))).toNat
  videoSamples ++
    [{ number := prev.number + 1, offset := prev.offset + prev.size, dts := dts,
       duration := duration, sync := chunk.typeKey, size := chunk.byteLength }]

/-- `MP4PushMuxerEncoder.onEncodedAudioChunk` (lines 504-526): a chunk with a
missing (or zero — JS `!chunk.duration`) duration is dropped with a warning;
otherwise append exactly as on the video track, with `sync := true`. -/
def onEncodedAudioChunk (audioSampleRate : Nat) (audioSamples : List MuxSample)
    (chunk : EncodedChunk) : List MuxSample :=
  let prev := audioSamples.getLastD EMPTY_SAMPLE
  if chunk.duration.getD 0 = 0 then audioSamples
  else
    let dts := jsRound (usToSec (chunk.timestamp : ℚ) * (audioSampleRate : ℚ))
    let duration := (jsRound (usToSec ((chunk.duration.getD 0 : Nat) : ℚ) * (audioSampleRate : ℚ))).toNat
    audioSamples ++
      [{ number := prev.number + 1, offset := prev.offset + prev.size, dts := dts,
         duration := duration, sync := true, size := chunk.byteLength }]

/-- The abstract output document of `multiplexToBuffer`: the top-level boxes
in construction order plus the media-data payload size. -/
structure MP4Document where
  boxes : List String
  mdatSize : Nat
  deriving DecidableEq

/-- The muxer state relevant to `multiplexToBuffer`: the two accumulated
sample lists, plus the outcome of the external encoder flushes and the
`_encoderError` slot. -/
structure MuxState where
  videoSamples : List MuxSample
  audioSamples : List MuxSample
  flushError : Option String
  encoderError : Option String
  deriving DecidableEq

/-- `MP4PushMuxerEncoder.multiplexToBuffer` (lines 168-412), with box-tree
construction abstracted to the ordered list of top-level boxes built and the
total `mdat` payload size. The control flow mirrors the source: the encoder
flushes may fail (rethrown), then `throwIfEncoderError`, then the
`videoSamples.length === 0` guard throws — all before `MP4Box.createFile()`
and the first `add(...)` call, so the error paths construct no boxes. -/
def multiplexToBuffer (st : MuxState) : Except String MP4Document :=
  match st.flushError with
  | some e => Except.error e
  | none =>
    match st.encoderError with
    | some e => Except.error e
    | none =>
      if st.videoSamples.length = 0 then
        Except.error ("Write failed: No video samples to write.")
      else
        Except.ok
          { boxes := ["ftyp", "mdat", "moov"]
            mdatSize := (st.videoSamples.map (fun s => s.size)).sum +
              (st.audioSamples.map (fun s => s.size)).sum }

/-- The keyframe decision of `MP4PushMuxerEncoder.pushVideoFrame` (line 538):
`frame.timestamp >= this.nextKeyframeUs`. -/
def pushVideoFrameFlag (nextKeyframeUs : ℚ) (timestamp : Int) : Bool :=
  decide (nextKeyframeUs ≤ (timestamp : ℚ))

/-- A raw video frame pushed into the muxer: timestamp (µs), optional
duration (µs), and the eventual encoded payload length. -/
structure PushedFrame where
  timestamp : Int
  duration : Option Nat
  byteLength : Nat
  deriving DecidableEq, Inhabited

/-- The video-push pipeline state: `nextKeyframeUs` (source line 102, starts
at 0), the FIFO of `(timestamp, keyFrame)` encode requests submitted so far,
and the accumulated video samples. -/
structure EncoderRunState where
  nextKeyframeUs : ℚ
  requests : List (Int × Bool)
  videoSamples : List MuxSample
  deriving DecidableEq

/-- The pipeline state of a fresh muxer instance. -/
def initialEncoderRunState : EncoderRunState :=
  { nextKeyframeUs := 0, requests := [], videoSamples := [] }

/-- One `pushVideoFrame` call (lines 535-545) together with the resulting
encoder output callback. The keyframe request logic is from the source:
request a keyframe iff `frame.timestamp >= nextKeyframeUs`, and if so advance
`nextKeyframeUs` by `secToUs(keyframeIntevalSec)`. Modelled from the spec:
the Codec Engine (out of scope upstream) delivers output chunks FIFO in
submission order and reports `isKeyframe` as requested, so the submitted
request is materialized immediately through `onEncodedVideoChunk`. -/
def pushVideoFrame (videoOutputTimescale : Nat) (keyframeIntevalSec : ℚ)
    (st : EncoderRunState) (frame : PushedFrame) : EncoderRunState :=
  let keyFrame := pushVideoFrameFlag st.nextKeyframeUs frame.timestamp
  let nextKeyframeUs :=
    if keyFrame then st.nextKeyframeUs + secToUs keyframeIntevalSec else st.nextKeyframeUs
  { nextKeyframeUs := nextKeyframeUs
    requests := st.requests ++ [(frame.timestamp, keyFrame)]
    videoSamples := onEncodedVideoChunk videoOutputTimescale st.videoSamples
      { timestamp := frame.timestamp, duration := frame.duration, typeKey := keyFrame,
        byteLength := frame.byteLength } }

/-- A full run of the muxer's video path: push every frame in order through
`pushVideoFrame`, starting from a fresh instance. -/
def runMuxerVideo (videoOutputTimescale : Nat) (keyframeIntevalSec : ℚ)
    (frames : List PushedFrame) : EncoderRunState :=
  frames.foldl (pushVideoFrame videoOutputTimescale keyframeIntevalSec) initialEncoderRunState

/-- A concrete indexed sample for the counterexample states: index `i`,
composition start `cts` and duration `dur` in timescale-1000 units, decode
order equal to presentation order, tightly packed 10-byte payloads. -/
def mkIdxSample (i : Nat) (cts : Int) (dur : Nat) (sync : Bool) : IndexedMP4Sample :=
  { number := i, cts := cts, dts := cts, duration := dur, timescale := 1000,
    is_sync := sync, offset := 10 * i, size := 10, ptsIndex := i, dtsIndex := i }

/-- A parsed two-sample file: sample 0 presents `[0ms, 1000ms)` and sample 1
presents `[1000ms, 1033ms)` (the spec's timestamp-lookup boundary scenario). -/
def demoBoundary : DemuxState :=
  { videoSamples := [mkIdxSample 0 0 1000 true, mkIdxSample 1 1000 33 true]
    videoTrak := true
    firstFramePtsOffsetMs := 0
    errorTrapped := none
    videoDecoderConfig := none }

/-- A parsed 16-sample file (100 ms per sample) whose keyframes sit at
presentation indices 0 and 15. -/
def demoKeySeek : DemuxState :=
  { videoSamples := (List.range 16).map
      (fun i => mkIdxSample i (100 * (i : Int)) 100 (decide (i = 0 ∨ i = 15)))
    videoTrak := true
    firstFramePtsOffsetMs := 0
    errorTrapped := none
    videoDecoderConfig := none }

/-- A parsed 17-sample file (100 ms per sample) whose only keyframe is the
first sample. -/
def demoDepthSeek : DemuxState :=
  { videoSamples := (List.range 17).map
      (fun i => mkIdxSample i (100 * (i : Int)) 100 (decide (i = 0)))
    videoTrak := true
    firstFramePtsOffsetMs := 0
    errorTrapped := none
    videoDecoderConfig := none }

/-- The demuxer state after `onReady` trapped `"mp4 file without video
track"` (lines 187-190): the error slot is set and no samples were indexed. -/
def demoParseFailed : DemuxState :=
  { videoSamples := []
    videoTrak := false
    firstFramePtsOffsetMs := 0
    errorTrapped := some ("mp4 file without video track")
    videoDecoderConfig := none }

/-- The relation between consecutive accumulated samples the claim asserts:
strictly increasing sequence numbers and tight byte packing. -/
def accChain (a b : MuxSample) : Prop :=
  a.number < b.number ∧ b.offset = a.offset + a.size

/-- The accumulator invariant of the claim: the first sample (if any) has
sequence number 1 and byte offset 0, and consecutive samples have strictly
increasing numbers and tightly packed offsets. -/
def accInvariant (l : List MuxSample) : Prop :=
  (l ≠ [] → (l.headD EMPTY_SAMPLE).number = 1 ∧ (l.headD EMPTY_SAMPLE).offset = 0) ∧
  l.Chain' accChain

instance : IsTotal IndexedMP4Sample byOffset := ⟨fun a b => Nat.le_total a.offset b.offset⟩

instance : IsTrans IndexedMP4Sample byOffset := ⟨fun _ _ _ => Nat.le_trans⟩

instance : IsTotal IndexedMP4Sample byDts := ⟨fun a b => Int.le_total a.dts b.dts⟩

instance : IsTrans IndexedMP4Sample byDts := ⟨fun _ _ _ => Int.le_trans⟩

instance : IsTotal MP4Sample byCts := ⟨fun a b => Int.le_total a.cts b.cts⟩

instance : IsTrans MP4Sample byCts := ⟨fun _ _ _ => Int.le_trans⟩

/-- The spec's fetch-ordering scenario input: three samples with offsets
`[200, 0, 100]` and sizes `[50, 50, 50]`, listed out of both offset and
decode order. -/
def demoFetchSamples : List IndexedMP4Sample :=
  [{ number := 2, cts := 200, dts := 2, duration := 100, timescale := 1000, is_sync := false,
      offset := 200, size := 50, ptsIndex := 2, dtsIndex := 2 },
   { number := 0, cts := 0, dts := 0, duration := 100, timescale := 1000, is_sync := true,
      offset := 0, size := 50, ptsIndex := 0, dtsIndex := 0 },
   { number := 1, cts := 100, dts := 1, duration := 100, timescale := 1000, is_sync := false,
      offset := 100, size := 50, ptsIndex := 1, dtsIndex := 1 }]

/-- A loaded demuxer state for the fetch-ordering scenario. -/
def demoFetchState : DemuxState :=
  { videoSamples := demoFetchSamples, videoTrak := true, firstFramePtsOffsetMs := 0,
    errorTrapped := none, videoDecoderConfig := none }

/-- The indexing invariant `onReady` establishes: each sample's `ptsIndex`
field equals its position in the presentation-ordered list. -/
def ptsIndexed (l : List IndexedMP4Sample) : Prop :=
  ∀ i (hi : i < l.length), l[i].ptsIndex = i

instance (l : List IndexedMP4Sample) : Decidable (ptsIndexed l) :=
  inferInstanceAs (Decidable (∀ i (hi : i < l.length), l[i].ptsIndex = i))

/-- A three-sample decode-ordered track whose middle sample presents last:
`number` `0, 1, 2` with `cts` `0, 200, 100`. -/
def demoTrakSamples : List MP4Sample :=
  [{ number := 0, cts := 0, dts := 0, duration := 100, timescale := 1000, is_sync := true,
      offset := 0, size := 50 },
   { number := 1, cts := 200, dts := 100, duration := 100, timescale := 1000, is_sync := false,
      offset := 50, size := 50 },
   { number := 2, cts := 100, dts := 200, duration := 100, timescale := 1000, is_sync := false,
      offset := 100, size := 50 }]

/-- A decoder config for the C7 witness state. -/
def demoConfig : VideoDecoderConfig :=
  { codec := "avc1.4d0034", codedWidth := 1920, codedHeight := 1080 }

/-! ### Helper lemmas -/

/-- The lookup loop is the first match of the closed-interval test. -/
lemma timestampLoop_eq_find (off t : ℚ) (l : List IndexedMP4Sample) :
    timestampLoop off t l =
      match l.find? (fun s => decide (containsClosed off t s)) with
      | some s => (s.ptsIndex : Int)
      | none => -1 := by
  induction l with
  | nil => rfl
  | cons s rest ih =>
    by_cases h : containsClosed off t s
    · simp only [timestampLoop, List.find?, decide_eq_true h]
      exact if_pos h
    · simp only [timestampLoop, List.find?, decide_eq_false h]
      exact (if_neg h).trans ih

/-- The loop returns `-1` exactly when no sample passes the closed-interval
test. -/
lemma timestampLoop_eq_neg_one (off t : ℚ) (l : List IndexedMP4Sample) :
    timestampLoop off t l = -1 ↔ ∀ s ∈ l, ¬ containsClosed off t s := by
  rw [timestampLoop_eq_find]
  rcases hf : l.find? (fun s => decide (containsClosed off t s)) with _ | s
  · rw [List.find?_eq_none] at hf
    show (-1 : Int) = -1 ↔ _
    simp only [eq_self_iff_true, true_iff]
    intro s hs hc
    exact hf s hs (decide_eq_true hc)
  · show ((s.ptsIndex : Int) = -1) ↔ _
    constructor
    · intro h1
      exact absurd h1 (by omega)
    · intro hall
      have hp := List.find?_some hf
      simp only [decide_eq_true_eq] at hp
      exact absurd hp (hall s (List.mem_of_find?_eq_some hf))

/-- A non-`-1` loop result is the `ptsIndex` of a matching member sample. -/
lemma timestampLoop_mem (off t : ℚ) (l : List IndexedMP4Sample)
    (h : timestampLoop off t l ≠ -1) :
    ∃ s ∈ l, containsClosed off t s ∧ timestampLoop off t l = (s.ptsIndex : Int) := by
  rw [timestampLoop_eq_find] at h ⊢
  rcases hf : l.find? (fun s => decide (containsClosed off t s)) with _ | s
  · rw [hf] at h
    exact absurd rfl h
  · have hp := List.find?_some hf
    simp only [decide_eq_true_eq] at hp
    exact ⟨s, List.mem_of_find?_eq_some hf, hp, rfl⟩

/-! ### C1: timestamp-to-sample resolution -/

/-- C1, amended (the source tests `ctsMs <= t && ctsMs + durationMs >= t`,
a closed interval, not the half-open interval the claim states):
`timestampMsToPtsIndex` returns the `ptsIndex` of the first sample in
presentation order whose offset-corrected closed presentation interval
`[cts, cts + duration]` contains the query, and `-1` when no sample's closed
interval does. In particular a query equal to the shared boundary of two
consecutive samples is matched by the earlier sample, not the later one. -/
theorem timestampLookup_first_closed_match (st : DemuxState) (t : ℚ) :
    st.timestampMsToPtsIndex t =
      match st.videoSamples.find? (fun s => decide (containsClosed st.firstFramePtsOffsetMs t s)) with
      | some s => (s.ptsIndex : Int)
      | none => -1 :=
  timestampLoop_eq_find st.firstFramePtsOffsetMs t st.videoSamples

/-- C1, counterexample to the claim as stated: in `demoBoundary`, sample 1
spans `[1000ms, 1033ms)`; by the claim's half-open semantics the query
`1000` must resolve to it (`ptsIndex` 1), but the source resolves `1000` to
sample 0 (whose half-open interval `[0ms, 1000ms)` does not contain the
query — only its closed interval does). -/
theorem timestampLookup_boundary_cex :
    demoBoundary.timestampMsToPtsIndex 1000 = 0 ∧
    mkIdxSample 1 1000 33 true ∈ demoBoundary.videoSamples ∧
    (mkIdxSample 1 1000 33 true).ptsIndex = 1 ∧
    containsHalfOpen demoBoundary.firstFramePtsOffsetMs 1000 (mkIdxSample 1 1000 33 true) ∧
    ¬ containsHalfOpen demoBoundary.firstFramePtsOffsetMs 1000 (mkIdxSample 0 0 1000 true) := by
  decide

/-! ### C4: seek with no matching sample -/

/-- C4, amended (the source does not throw a no-matching-sample error): when
at least one sample was extracted but no sample's offset-corrected closed
interval contains the target, `seek` returns the normal result
`{ samples: [], ptsIndex: -1, dtsIndex: -1 }` rather than raising an error. -/
theorem seek_no_match_ok_empty (st : DemuxState) (t : ℚ)
    (hne : st.videoSamples ≠ [])
    (h : ∀ s ∈ st.videoSamples, ¬ containsClosed st.firstFramePtsOffsetMs t s) :
    st.seek t = Except.ok { ptsIndex := -1, dtsIndex := -1, samples := [] } := by
  have hlen : ¬ (st.videoSamples.length = 0) := by
    simpa [List.length_eq_zero] using hne
  have hloop : st.timestampMsToPtsIndex t = -1 :=
    (timestampLoop_eq_neg_one st.firstFramePtsOffsetMs t st.videoSamples).mpr h
  rw [DemuxState.seek, if_neg hlen]
  simp [hloop]

/-- C4 witness: the two-sample `demoBoundary` file queried far past its end. -/
theorem seek_no_match_ok_empty_witness :
    demoBoundary.seek 5000 = Except.ok { ptsIndex := -1, dtsIndex := -1, samples := [] } :=
  seek_no_match_ok_empty demoBoundary 5000 (by decide) (by decide)

/-- C4, counterexample to the claim as stated: no sample of `demoBoundary`
contains the timestamp `5000` (under the half-open semantics the claim uses,
and equally under the source's closed test), yet `seek` returns a normal
`ok` result instead of failing with a no-matching-sample error. -/
theorem seek_no_match_cex :
    (∀ s ∈ demoBoundary.videoSamples,
      ¬ containsHalfOpen demoBoundary.firstFramePtsOffsetMs 5000 s) ∧
    demoBoundary.seek 5000 = Except.ok { ptsIndex := -1, dtsIndex := -1, samples := [] } := by
  decide

/-! ### C8: multiplex with zero video samples -/

/-- C8: `multiplexToBuffer` on a muxer whose encoders flushed cleanly but
which accumulated no video samples fails with the dedicated no-video-samples
error. In the embedding (as in the source, where the guard precedes
`MP4Box.createFile()` and every `add` call) the error path produces no
document: no `ftyp`, `mdat` or `moov` box is constructed. -/
theorem multiplex_empty_video_error (st : MuxState)
    (hflush : st.flushError = none) (henc : st.encoderError = none)
    (hvs : st.videoSamples = []) :
    multiplexToBuffer st = Except.error ("Write failed: No video samples to write.") := by
  simp [multiplexToBuffer, hflush, henc, hvs]

/-- C8 witness: a fresh muxer with no samples at all. -/
theorem multiplex_empty_video_error_witness :
    multiplexToBuffer
      { videoSamples := [], audioSamples := [], flushError := none, encoderError := none } =
      Except.error ("Write failed: No video samples to write.") :=
  multiplex_empty_video_error
    { videoSamples := [], audioSamples := [], flushError := none, encoderError := none }
    rfl rfl rfl

/-! ### C9: re-raising of trapped parse errors -/

/-- C9, amended (only `getVideoDecoderConfig` re-raises the trapped error):
on an instance whose parse trapped an error and extracted no samples (the
missing-video-track case), `getVideoDecoderConfig` re-raises the trapped
error, but `readAllSamples` succeeds with `[]` and `seek` fails with its own
seek-specific error — neither re-raises the trapped error. -/
theorem trapped_error_reraise_only_config (st : DemuxState) (e : String) (t : ℚ)
    (herr : st.errorTrapped = some e) (hvs : st.videoSamples = []) :
    st.getVideoDecoderConfig = Except.error e ∧
    st.readAllSamples = Except.ok [] ∧
    st.seek t = Except.error ("Seek failed. No video samples have been extracted.") := by
  refine ⟨?_, ?_, ?_⟩
  · rw [DemuxState.getVideoDecoderConfig, herr]
  · rw [DemuxState.readAllSamples, hvs]; rfl
  · rw [DemuxState.seek, hvs]; rfl

/-- C9 witness: the state left behind by `onReady` on a file without a video
track. -/
theorem trapped_error_reraise_only_config_witness :
    demoParseFailed.getVideoDecoderConfig =
        Except.error ("mp4 file without video track") ∧
    demoParseFailed.readAllSamples = Except.ok [] ∧
    demoParseFailed.seek 0 =
        Except.error ("Seek failed. No video samples have been extracted.") :=
  trapped_error_reraise_only_config demoParseFailed ("mp4 file without video track") 0 rfl rfl

/-- C9, counterexample to the claim as stated: after the missing-video-track
parse error was trapped, `readAllSamples` does not re-raise it (it returns a
normal empty result) and `seek` raises its own distinct error, not the
trapped one. -/
theorem trapped_error_readAll_cex :
    demoParseFailed.errorTrapped = some ("mp4 file without video track") ∧
    demoParseFailed.readAllSamples = Except.ok [] ∧
    demoParseFailed.seek 0 =
      Except.error ("Seek failed. No video samples have been extracted.") := by
  refine ⟨rfl, rfl, rfl⟩

/-! ### C5: accumulator state invariant -/

/-- Appending a sample that continues the chain preserves the invariant. -/
lemma accInvariant_append (l : List MuxSample) (a : MuxSample)
    (h : accInvariant l)
    (h1 : l = [] → a.number = 1 ∧ a.offset = 0)
    (h2 : ∀ lastS, l.getLast? = some lastS → accChain lastS a) :
    accInvariant (l ++ [a]) := by
  obtain ⟨hh, hc⟩ := h
  constructor
  · intro _
    cases l with
    | nil => simpa using h1 rfl
    | cons x xs => simpa using hh (by simp)
  · refine List.Chain'.append hc (List.chain'_singleton a) ?_
    intro x hx y hy
    simp only [List.head?_cons, Option.mem_def, Option.some.injEq] at hy
    subst hy
    exact h2 x hx

/-- C5: the accumulator invariant is preserved by every push on every track.
`onEncodedVideoChunk` and `onEncodedAudioChunk` each append a sample with
`number = prev.number + 1` and `offset = prev.offset + prev.size` (the audio
path drops duration-less chunks, leaving the state unchanged), so strictly
increasing 1-based sequence numbers, a zero first offset and tight packing
are invariant. -/
theorem accumulator_push_invariant (videoOutputTimescale audioSampleRate : Nat)
    (videoSamples audioSamples : List MuxSample) (videoChunk audioChunk : EncodedChunk)
    (hv : accInvariant videoSamples) (ha : accInvariant audioSamples) :
    accInvariant (onEncodedVideoChunk videoOutputTimescale videoSamples videoChunk) ∧
    accInvariant (onEncodedAudioChunk audioSampleRate audioSamples audioChunk) := by
  constructor
  · refine accInvariant_append _ _ hv ?_ ?_
    · intro he
      subst he
      exact ⟨rfl, rfl⟩
    · intro lastS hlast
      refine ⟨?_, ?_⟩ <;> simp [List.getLastD_eq_getLast?, hlast]
  · rw [onEncodedAudioChunk]
    by_cases hd : audioChunk.duration.getD 0 = 0
    · simpa [hd] using ha
    · simp only [hd, if_false]
      refine accInvariant_append _ _ ha ?_ ?_
      · intro he
        subst he
        exact ⟨rfl, rfl⟩
      · intro lastS hlast
        refine ⟨?_, ?_⟩ <;> simp [List.getLastD_eq_getLast?, hlast]

/-- C5 witness: pushing one chunk on each empty track yields invariant
states. -/
theorem accumulator_push_invariant_witness :
    accInvariant (onEncodedVideoChunk 90000 []
      { timestamp := 0, duration := some 33333, typeKey := true, byteLength := 10 }) ∧
    accInvariant (onEncodedAudioChunk 48000 []
      { timestamp := 0, duration := some 20000, typeKey := false, byteLength := 4 }) :=
  accumulator_push_invariant 90000 48000 [] []
    { timestamp := 0, duration := some 33333, typeKey := true, byteLength := 10 }
    { timestamp := 0, duration := some 20000, typeKey := false, byteLength := 4 }
    ⟨fun he => absurd rfl he, List.chain'_nil⟩
    ⟨fun he => absurd rfl he, List.chain'_nil⟩

/-! ### C10: first keyframe request -/

/-- Pushing only negative-timestamp frames never triggers a keyframe, so
`nextKeyframeUs` stays put. -/
lemma run_neg_frames_nextKeyframe (T : Nat) (K : ℚ) (frames : List PushedFrame)
    (st : EncoderRunState) (h0 : st.nextKeyframeUs = 0)
    (hneg : ∀ f ∈ frames, f.timestamp < 0) :
    (frames.foldl (pushVideoFrame T K) st).nextKeyframeUs = 0 := by
  induction frames generalizing st with
  | nil => exact h0
  | cons f rest ih =>
    have hf : f.timestamp < 0 := hneg f (by simp)
    have hflag : pushVideoFrameFlag 0 f.timestamp = false := by
      rw [pushVideoFrameFlag, decide_eq_false_iff_not, not_le]
      exact_mod_cast hf
    refine ih _ ?_ (fun g hg => hneg g (by simp [hg]))
    simp [pushVideoFrame, h0, hflag]

/-- Later pushes append samples, so a non-empty sample list keeps its head. -/
lemma run_head_stable (T : Nat) (K : ℚ) (frames : List PushedFrame)
    (st : EncoderRunState) (hne : st.videoSamples ≠ []) :
    (frames.foldl (pushVideoFrame T K) st).videoSamples.headD EMPTY_SAMPLE =
        st.videoSamples.headD EMPTY_SAMPLE ∧
      (frames.foldl (pushVideoFrame T K) st).videoSamples ≠ [] := by
  induction frames generalizing st with
  | nil => exact ⟨rfl, hne⟩
  | cons f rest ih =>
    rcases hvs : st.videoSamples with _ | ⟨a, l⟩
    · exact absurd hvs hne
    · have hstep : (pushVideoFrame T K st f).videoSamples.headD EMPTY_SAMPLE =
          st.videoSamples.headD EMPTY_SAMPLE ∧ (pushVideoFrame T K st f).videoSamples ≠ [] := by
        simp [pushVideoFrame, onEncodedVideoChunk, hvs]
      obtain ⟨ih1, ih2⟩ := ih (pushVideoFrame T K st f) hstep.2
      exact ⟨by rw [List.foldl_cons, ih1, hstep.1, hvs], by rw [List.foldl_cons]; exact ih2⟩

/-- C10, amended (the consequence about the run's first sample holds when the
run's first frame has a non-negative timestamp): (i) in any run, the first
pushed frame with a non-negative timestamp — all earlier frames having
negative timestamps — is requested as a keyframe, because `nextKeyframeUs`
starts at 0 and only advances when a keyframe is forced; (ii) under the
spec's Codec Engine contract (FIFO callbacks honouring the requested
`keyFrame` flag, as modelled in `pushVideoFrame`), a non-empty run whose
first frame has a non-negative timestamp produces a sync first sample. -/
theorem push_first_nonneg_keyframe (T : Nat) (K : ℚ) (frames : List PushedFrame)
    (i : Nat) (f : PushedFrame)
    (hneg : ∀ g ∈ frames.take i, g.timestamp < 0)
    (hf : frames[i]? = some f)
    (hpos : 0 ≤ f.timestamp) :
    (runMuxerVideo T K (frames.take (i + 1))).requests.getLast? = some (f.timestamp, true) ∧
    (∀ f0, frames.head? = some f0 → 0 ≤ f0.timestamp →
      ((runMuxerVideo T K frames).videoSamples.headD EMPTY_SAMPLE).sync = true) := by
  constructor
  · have htake : frames.take (i + 1) = frames.take i ++ [f] := by
      rw [List.take_succ, hf]
      rfl
    rw [runMuxerVideo, htake, List.foldl_append]
    have hnk : (List.foldl (pushVideoFrame T K) initialEncoderRunState (frames.take i)).nextKeyframeUs = 0 :=
      run_neg_frames_nextKeyframe T K (frames.take i) initialEncoderRunState rfl hneg
    have hflag : pushVideoFrameFlag
        (List.foldl (pushVideoFrame T K) initialEncoderRunState (frames.take i)).nextKeyframeUs
        f.timestamp = true := by
      rw [hnk, pushVideoFrameFlag, decide_eq_true_eq]
      exact_mod_cast hpos
    simp [pushVideoFrame, hflag]
  · intro f0 hhead hpos0
    rcases frames with _ | ⟨g, rest⟩
    · simp at hhead
    · simp only [List.head?_cons, Option.some.injEq] at hhead
      rw [← hhead] at hpos0
      have hflag : pushVideoFrameFlag 0 g.timestamp = true := by
        rw [pushVideoFrameFlag, decide_eq_true_eq]
        show (0 : ℚ) ≤ (g.timestamp : ℚ)
        exact_mod_cast hpos0
      have hstep : (pushVideoFrame T K initialEncoderRunState g).videoSamples ≠ [] := by
        simp [pushVideoFrame, onEncodedVideoChunk, initialEncoderRunState]
      have := run_head_stable T K rest (pushVideoFrame T K initialEncoderRunState g) hstep
      rw [runMuxerVideo, List.foldl_cons, this.1]
      simp [pushVideoFrame, onEncodedVideoChunk, initialEncoderRunState, hflag]

/-- C10 witness: a run whose first frame sits at −1 µs and whose second frame
is the first with a non-negative timestamp; the second frame is requested as
a keyframe. -/
theorem push_first_nonneg_keyframe_witness :
    (runMuxerVideo 90000 2 (([{ timestamp := -1, duration := some 33333, byteLength := 10 },
        { timestamp := 0, duration := some 33333, byteLength := 10 }] : List PushedFrame).take 2)).requests.getLast? =
      some (0, true) :=
  (push_first_nonneg_keyframe 90000 2
    [{ timestamp := -1, duration := some 33333, byteLength := 10 },
     { timestamp := 0, duration := some 33333, byteLength := 10 }] 1
    { timestamp := 0, duration := some 33333, byteLength := 10 }
    (by decide) (by decide) (by decide)).1

/-- C10, counterexample to the claim's consequence as stated: the non-empty
run consisting of one frame at timestamp −1 µs has its only (hence first)
encode request issued with `keyFrame = false`, so under the spec's Codec
Engine contract its first accumulated video sample is not a sync sample. -/
theorem push_first_sample_not_sync_cex :
    (runMuxerVideo 90000 2 [{ timestamp := -1, duration := some 33333, byteLength := 10 }]).requests =
        [(-1, false)] ∧
      (runMuxerVideo 90000 2
            [{ timestamp := -1, duration := some 33333, byteLength := 10 }]).videoSamples.map
          (fun s => s.sync) =
        [false] := by
  decide

/-! ### C6: bulk fetch -/

/-- A `getLast?` value is a member. -/
lemma mem_of_getLast?_eq {α : Type} {l : List α} {a : α} (h : l.getLast? = some a) : a ∈ l := by
  have hx : a ∈ l.getLast? := by simp [h]
  rcases List.mem_getLast?_eq_getLast hx with ⟨hne, rfl⟩
  exact List.getLast_mem hne

/-- In a sorted list, the head is below every member (for a reflexive
relation). -/
lemma sorted_head_rel {α : Type} {r : α → α → Prop} (hrefl : ∀ a, r a a)
    {l : List α} (hs : List.Sorted r l) {x : α} (hx : x ∈ l) {h : α}
    (hh : l.head? = some h) : r h x := by
  cases l with
  | nil => simp at hx
  | cons a t =>
    simp only [List.head?_cons, Option.some.injEq] at hh
    subst hh
    rcases List.mem_cons.mp hx with rfl | hx'
    · exact hrefl x
    · exact List.rel_of_sorted_cons hs x hx'

/-- In a sorted list, every member is below the last element (for a
reflexive relation). -/
lemma sorted_rel_getLast {α : Type} {r : α → α → Prop} (hrefl : ∀ a, r a a) :
    ∀ (l : List α), List.Sorted r l → ∀ x ∈ l, ∀ y, l.getLast? = some y → r x y
  | [], _, x, hx => by simp at hx
  | [a], _, x, hx => by
    intro y hy
    simp only [List.getLast?_singleton, Option.some.injEq] at hy
    simp only [List.mem_singleton] at hx
    subst hx; subst hy
    exact hrefl x
  | a :: b :: t, hs, x, hx => by
    intro y hy
    rw [List.getLast?_cons_cons] at hy
    rcases List.mem_cons.mp hx with rfl | hx'
    · exact List.rel_of_sorted_cons hs y (mem_of_getLast?_eq hy)
    · exact sorted_rel_getLast hrefl (b :: t) hs.of_cons x hx' y hy

/-- `mapM` over `Except` with a pointwise-identity function is the
identity. -/
lemma mapM_ok_of_ok {α : Type} (f : α → Except String α) (l : List α)
    (h : ∀ x ∈ l, f x = Except.ok x) : l.mapM f = Except.ok l := by
  induction l with
  | nil => rfl
  | cons x xs ih =>
    rw [List.mapM_cons, h x (by simp), ih (fun y hy => h y (by simp [hy]))]
    rfl

/-- C6: bulk fetch issues exactly one contiguous read and returns decode
order. On a loaded track, for input samples whose decode timestamps are
ordered exactly as their decode indices (`dts` strictly follows `dtsIndex`,
true of any well-formed MP4 decode timeline): the empty input produces an
empty result with no read; a non-empty input produces exactly one read range
`[first.offset, lastS.offset + lastS.size)` where `first` attains the
minimum offset and `lastS` the maximum, and the returned samples are a
permutation of the input sorted by `dtsIndex` (decode order), regardless of
the input's offset order. -/
theorem bulkFetch_single_read_decode_order (st : DemuxState)
    (samples : List IndexedMP4Sample)
    (hTrak : st.videoTrak = true)
    (hIso : ∀ a ∈ samples, ∀ b ∈ samples, (a.dts ≤ b.dts ↔ a.dtsIndex ≤ b.dtsIndex)) :
    st.bulkFetchSampleData [] = Except.ok (none, []) ∧
    (samples ≠ [] → ∃ first lastS out,
      st.bulkFetchSampleData samples =
        Except.ok (some (first.offset, lastS.offset + lastS.size), out) ∧
      first ∈ samples ∧ lastS ∈ samples ∧
      (∀ s ∈ samples, first.offset ≤ s.offset ∧ s.offset ≤ lastS.offset) ∧
      out.Perm samples ∧
      out.Pairwise (fun a b => a.dtsIndex ≤ b.dtsIndex)) := by
  refine ⟨rfl, ?_⟩
  intro hne
  rcases samples with _ | ⟨s, rest⟩
  · exact absurd rfl hne
  · have hsortOff : List.Sorted byOffset (List.insertionSort byOffset (s :: rest)) :=
      List.sorted_insertionSort byOffset (s :: rest)
    have hpermOff : List.Perm (List.insertionSort byOffset (s :: rest)) (s :: rest) :=
      List.perm_insertionSort byOffset (s :: rest)
    have hOffNe : List.insertionSort byOffset (s :: rest) ≠ [] := by
      intro hcon
      have hlen := hpermOff.length_eq
      rw [hcon] at hlen
      simp at hlen
    obtain ⟨first, hfirst⟩ : ∃ a, (List.insertionSort byOffset (s :: rest)).head? = some a := by
      rcases hh : (List.insertionSort byOffset (s :: rest)).head? with _ | a
      · exact absurd (List.head?_eq_none_iff.mp hh) hOffNe
      · exact ⟨a, rfl⟩
    obtain ⟨lastS, hlast⟩ : ∃ a, (List.insertionSort byOffset (s :: rest)).getLast? = some a := by
      rcases hh : (List.insertionSort byOffset (s :: rest)).getLast? with _ | a
      · exact absurd (List.getLast?_eq_none_iff.mp hh) hOffNe
      · exact ⟨a, rfl⟩
    have hfirstMem : first ∈ s :: rest := hpermOff.mem_iff.mp (by
      cases hl : List.insertionSort byOffset (s :: rest) with
      | nil => exact absurd hl hOffNe
      | cons a t =>
        rw [hl] at hfirst
        simp only [List.head?_cons, Option.some.injEq] at hfirst
        subst hfirst
        simp)
    have hlastMem : lastS ∈ s :: rest := hpermOff.mem_iff.mp (mem_of_getLast?_eq hlast)
    have hsortDts : List.Sorted byDts (List.insertionSort byDts (s :: rest)) :=
      List.sorted_insertionSort byDts (s :: rest)
    have hpermDts : List.Perm (List.insertionSort byDts (s :: rest)) (s :: rest) :=
      List.perm_insertionSort byDts (s :: rest)
    refine ⟨first, lastS, List.insertionSort byDts (s :: rest), ?_, hfirstMem, hlastMem, ?_, hpermDts, ?_⟩
    · rw [DemuxState.bulkFetchSampleData]
      rw [mapM_ok_of_ok st.fetchSampleData (List.insertionSort byDts (s :: rest))
        (fun x _ => by rw [DemuxState.fetchSampleData, if_pos hTrak])]
      have h1 : (List.insertionSort byOffset (s :: rest)).headD default = first := by
        rw [List.headD_eq_head?_getD, hfirst]; rfl
      have h2 : (List.insertionSort byOffset (s :: rest)).getLastD default = lastS := by
        rw [List.getLastD_eq_getLast?, hlast]; rfl
      rw [h1, h2]
      rfl
    · intro x hx
      constructor
      · exact sorted_head_rel (r := byOffset) (fun a => Nat.le_refl a.offset) hsortOff
          (hpermOff.mem_iff.mpr hx) hfirst
      · exact sorted_rel_getLast (r := byOffset) (fun a => Nat.le_refl a.offset) _ hsortOff x
          (hpermOff.mem_iff.mpr hx) lastS hlast
    · refine hsortDts.imp_of_mem (fun ha hb hr => ?_)
      exact (hIso _ (hpermDts.mem_iff.mp ha) _ (hpermDts.mem_iff.mp hb)).mp hr

/-- C6 witness: on the spec's fetch-ordering scenario the theorem yields the
single read range `[0, 250)` and a decode-ordered result. -/
theorem bulkFetch_single_read_decode_order_witness :
    ∃ first lastS out,
      demoFetchState.bulkFetchSampleData demoFetchSamples =
        Except.ok (some (first.offset, lastS.offset + lastS.size), out) ∧
      first ∈ demoFetchSamples ∧ lastS ∈ demoFetchSamples ∧
      (∀ s ∈ demoFetchSamples, first.offset ≤ s.offset ∧ s.offset ≤ lastS.offset) ∧
      out.Perm demoFetchSamples ∧
      out.Pairwise (fun a b => a.dtsIndex ≤ b.dtsIndex) :=
  (bulkFetch_single_read_decode_order demoFetchState demoFetchSamples rfl (by decide)).2
    (by decide)

/-! ### C2 and C3: the seek window -/

/-- Under the indexing invariant, a member sample sits at the position its
`ptsIndex` names. -/
lemma ptsIndexed_mem {l : List IndexedMP4Sample} (hpts : ptsIndexed l)
    {x : IndexedMP4Sample} (hx : x ∈ l) :
    ∃ hi : x.ptsIndex < l.length, l[x.ptsIndex] = x := by
  obtain ⟨n, hn, hget⟩ := List.mem_iff_getElem.mp hx
  subst hget
  refine ⟨?_, ?_⟩ <;> simp [hpts n hn, hn]

/-- `getD` at an in-bounds index is plain indexing. -/
lemma getD_of_lt {α : Type} [Inhabited α] (l : List α) (i : Nat) (hi : i < l.length) :
    l.getD i default = l[i] := by
  rw [List.getD_eq_getElem?_getD, List.getElem?_eq_getElem hi]
  rfl

/-- The head of the window slice `slice(a, ...)` is the sample at index `a`. -/
lemma slice_head? (l : List IndexedMP4Sample) (a b : Nat) (ha : a < l.length) (hb : 0 < b) :
    ((l.drop a).take b).head? = some (l[a]) := by
  have h1 : 0 < ((l.drop a).take b).length := by
    simp only [List.length_take, List.length_drop]
    omega
  rcases hs : (l.drop a).take b with _ | ⟨y, ys⟩
  · rw [hs] at h1
    simp at h1
  · have h0 : 0 < ((l.drop a).take b).length := h1
    have hy : ((l.drop a).take b)[0] = y := by
      simp [hs]
    rw [List.getElem_take, List.getElem_drop] at hy
    rw [List.head?_cons, ← hy]
    simp

/-- Every sample of the window slice `slice(a, e)` lies in the list and has
`ptsIndex ≥ a` (under the indexing invariant). -/
lemma slice_mem_spec (l : List IndexedMP4Sample) (hpts : ptsIndexed l) (a b : Nat)
    {x : IndexedMP4Sample} (hx : x ∈ (l.drop a).take b) :
    x ∈ l ∧ a ≤ x.ptsIndex := by
  obtain ⟨j, hj, hget⟩ := List.mem_iff_getElem.mp hx
  have hj2 := hj
  simp only [List.length_take, List.length_drop] at hj2
  have hj3 : a + j < l.length := by omega
  rw [List.getElem_take, List.getElem_drop] at hget
  subst hget
  exact ⟨List.getElem_mem hj3, by rw [hpts (a + j) hj3]; omega⟩

/-- `bulkFetchSampleData` on a loaded track succeeds and returns the input
re-sorted by decode timestamp. -/
lemma bulkFetch_ok (st : DemuxState) (hTrak : st.videoTrak = true) :
    ∀ samples : List IndexedMP4Sample, ∃ range,
      st.bulkFetchSampleData samples = Except.ok (range, List.insertionSort byDts samples)
  | [] => ⟨none, rfl⟩
  | s :: rest => by
    refine ⟨some (((List.insertionSort byOffset (s :: rest)).headD default).offset,
      ((List.insertionSort byOffset (s :: rest)).getLastD default).offset +
        ((List.insertionSort byOffset (s :: rest)).getLastD default).size), ?_⟩
    rw [DemuxState.bulkFetchSampleData,
      mapM_ok_of_ok _ _ (fun x _ => by rw [DemuxState.fetchSampleData, if_pos hTrak])]
    rfl

/-- The target frame of a successful lookup, under the indexing invariant:
the sample whose `ptsIndex` the lookup returned, which is what the source's
`this.videoSamples[targetFrameIndex]` retrieves. -/
lemma seek_target_frame (st : DemuxState) (t : ℚ) (hpts : ptsIndexed st.videoSamples)
    (hne : st.timestampMsToPtsIndex t ≠ -1) :
    ∃ (fr : IndexedMP4Sample) (hlt : fr.ptsIndex < st.videoSamples.length),
      st.timestampMsToPtsIndex t = (fr.ptsIndex : Int) ∧
      st.videoSamples.getD fr.ptsIndex default = fr ∧
      fr ∈ st.videoSamples := by
  obtain ⟨fr, hmem, _, heq⟩ := timestampLoop_mem _ _ _ hne
  obtain ⟨hlt, hget⟩ := ptsIndexed_mem hpts hmem
  exact ⟨fr, hlt, heq, by rw [getD_of_lt _ _ hlt, hget], hmem⟩

/-- What `findLast(f => f.is_sync)` over `slice(0, p)` yields, under the
indexing invariant: a sync member sample with `ptsIndex < p`. -/
lemma lastKeyframe_spec (l : List IndexedMP4Sample) (hpts : ptsIndexed l) (p : Nat)
    (lk : IndexedMP4Sample)
    (hlk : ((l.take p).filter (fun f => f.is_sync)).getLast? = some lk) :
    lk ∈ l ∧ lk.is_sync = true ∧ lk.ptsIndex < p ∧ lk.ptsIndex < l.length := by
  have hmemf := mem_of_getLast?_eq hlk
  have hmem2 := List.mem_filter.mp hmemf
  obtain ⟨j, hj, hget⟩ := List.mem_iff_getElem.mp hmem2.1
  have hjp : j < p := by
    have := hj.trans_le (List.length_take_le p l)
    have h2 := hj
    simp only [List.length_take] at h2
    omega
  have hjl : j < l.length := by
    have h2 := hj
    simp only [List.length_take] at h2
    omega
  rw [List.getElem_take] at hget
  subst hget
  refine ⟨List.getElem_mem hjl, by simpa using hmem2.2, ?_, ?_⟩ <;> rw [hpts j hjl]
  · exact hjp
  · exact hjl

/-- The non-keyframe branch of `seek` (`MP4PullDemuxer.ts` lines 254-268),
characterized: given that the lookup resolved a non-sync target frame `fr`
and the backward keyframe scan found `lk`, `seek` succeeds and its window is
the slice from `lk.ptsIndex` (inclusive) to
`min(max(nextKeyframe ?? 0, target, lastKeyframe + Q), length - 1)`
(exclusive), re-sorted by decode timestamp. -/
lemma seek_nonsync_eq (st : DemuxState) (t : ℚ)
    (hTrak : st.videoTrak = true)
    (hlen : st.videoSamples.length ≠ 0)
    (fr : IndexedMP4Sample)
    (hfr : st.timestampMsToPtsIndex t = (fr.ptsIndex : Int))
    (hgetD : st.videoSamples.getD fr.ptsIndex default = fr)
    (hns : fr.is_sync = false)
    (lk : IndexedMP4Sample)
    (hlk : ((st.videoSamples.take fr.ptsIndex).filter (fun f => f.is_sync)).getLast? = some lk) :
    st.seek t = Except.ok
      { ptsIndex := (fr.ptsIndex : Int), dtsIndex := (fr.dtsIndex : Int),
        samples := List.insertionSort byDts
          ((st.videoSamples.drop lk.ptsIndex).take
            (min (max (max ((((st.videoSamples.drop fr.ptsIndex).find? (fun f => f.is_sync)).map
                    (fun f => f.ptsIndex)).getD 0)
                  fr.ptsIndex) (lk.ptsIndex + MIN_DECODER_QUEUE_SIZE))
              (st.videoSamples.length - 1) - lk.ptsIndex)) } := by
  have h2 : ((fr.ptsIndex : Int) = -1) = False := eq_false (by omega)
  have h3 : ((fr.ptsIndex : Int)).toNat = fr.ptsIndex := Int.toNat_natCast fr.ptsIndex
  obtain ⟨range, hbulk⟩ := bulkFetch_ok st hTrak
    ((st.videoSamples.drop lk.ptsIndex).take
      (min (max (max ((((st.videoSamples.drop fr.ptsIndex).find? (fun f => f.is_sync)).map
              (fun f => f.ptsIndex)).getD 0)
            fr.ptsIndex) (lk.ptsIndex + MIN_DECODER_QUEUE_SIZE))
        (st.videoSamples.length - 1) - lk.ptsIndex))
  rw [DemuxState.seek, if_neg hlen]
  simp only [hfr, h2, h3, hgetD, hns, Bool.false_eq_true, if_false, hlk, hbulk]
  rfl

/-- Full characterization of a successful non-keyframe-target seek, with the
target frame `fr`, window-start keyframe `lk` and clamped end index `E` made
explicit. -/
lemma seek_nonsync_main (st : DemuxState) (t : ℚ)
    (hpts : ptsIndexed st.videoSamples)
    (hTrak : st.videoTrak = true)
    (hne : st.timestampMsToPtsIndex t ≠ -1)
    (hns : (st.videoSamples.getD (st.timestampMsToPtsIndex t).toNat default).is_sync = false)
    (hlk : (st.videoSamples.take
        ((st.videoSamples.getD (st.timestampMsToPtsIndex t).toNat default).ptsIndex)).filter
          (fun f => f.is_sync) ≠ []) :
    ∃ (fr lk : IndexedMP4Sample) (E : Nat),
      lk ∈ st.videoSamples ∧ lk.is_sync = true ∧
      lk.ptsIndex < fr.ptsIndex ∧ fr.ptsIndex < st.videoSamples.length ∧
      ((st.videoSamples.take fr.ptsIndex).filter (fun f => f.is_sync)).getLast? = some lk ∧
      E = min (max (max ((((st.videoSamples.drop fr.ptsIndex).find? (fun f => f.is_sync)).map
              (fun f => f.ptsIndex)).getD 0)
            fr.ptsIndex) (lk.ptsIndex + MIN_DECODER_QUEUE_SIZE))
          (st.videoSamples.length - 1) ∧
      st.seek t = Except.ok
        { ptsIndex := (fr.ptsIndex : Int), dtsIndex := (fr.dtsIndex : Int),
          samples := List.insertionSort byDts
            ((st.videoSamples.drop lk.ptsIndex).take (E - lk.ptsIndex)) } := by
  have hlen : st.videoSamples.length ≠ 0 := by
    intro h0
    rw [DemuxState.timestampMsToPtsIndex, List.length_eq_zero.mp h0] at hne
    exact hne rfl
  obtain ⟨fr, hlt, hfr, hgetD, _⟩ := seek_target_frame st t hpts hne
  have htoNat : (st.timestampMsToPtsIndex t).toNat = fr.ptsIndex := by
    rw [hfr]
    exact Int.toNat_natCast fr.ptsIndex
  rw [htoNat, hgetD] at hns hlk
  obtain ⟨lk, hlkeq⟩ : ∃ lk,
      ((st.videoSamples.take fr.ptsIndex).filter (fun f => f.is_sync)).getLast? = some lk := by
    rcases hq : ((st.videoSamples.take fr.ptsIndex).filter (fun f => f.is_sync)).getLast? with _ | lk
    · exact absurd (List.getLast?_eq_none_iff.mp hq) hlk
    · exact ⟨lk, hq⟩
  obtain ⟨hlkmem, hlksync, hlklt, _⟩ :=
    lastKeyframe_spec st.videoSamples hpts fr.ptsIndex lk hlkeq
  refine ⟨fr, lk, _, hlkmem, hlksync, hlklt, hlt, hlkeq, rfl, ?_⟩
  exact seek_nonsync_eq st t hTrak hlen fr hfr hgetD hns lk hlkeq

/-- C2, amended (the claim holds for the non-keyframe branch only; when the
target frame is itself a keyframe the window is centered on it and its first
sample need not be a sync sample): for every successful `seek(t)` whose
resolved target frame is not a sync sample (and whose backward keyframe scan
succeeds), the returned window is non-empty and its presentation-earliest
sample — the first sample of the window in presentation order, which is
`window[0]` whenever decode order agrees with presentation order — is a sync
sample, namely the keyframe preceding the target. -/
theorem seek_nonsync_window_head_keyframe (st : DemuxState) (t : ℚ)
    (hpts : ptsIndexed st.videoSamples)
    (hTrak : st.videoTrak = true)
    (hne : st.timestampMsToPtsIndex t ≠ -1)
    (hns : (st.videoSamples.getD (st.timestampMsToPtsIndex t).toNat default).is_sync = false)
    (hlk : (st.videoSamples.take
        ((st.videoSamples.getD (st.timestampMsToPtsIndex t).toNat default).ptsIndex)).filter
          (fun f => f.is_sync) ≠ []) :
    ∃ w, st.seek t = Except.ok w ∧ w.samples ≠ [] ∧
      ∃ k ∈ w.samples, k.is_sync = true ∧ ∀ x ∈ w.samples, k.ptsIndex ≤ x.ptsIndex := by
  obtain ⟨fr, lk, E, hlkmem, hlksync, hlkfr, hfrlen, hlkeq, hE, hseek⟩ :=
    seek_nonsync_main st t hpts hTrak hne hns hlk
  have hQ : MIN_DECODER_QUEUE_SIZE = 20 := rfl
  have hElk : lk.ptsIndex < E := by
    rw [hE, hQ]
    omega
  have hlklen : lk.ptsIndex < st.videoSamples.length := Nat.lt_trans hlkfr hfrlen
  have hperm : List.Perm
      (List.insertionSort byDts
        ((st.videoSamples.drop lk.ptsIndex).take (E - lk.ptsIndex)))
      ((st.videoSamples.drop lk.ptsIndex).take (E - lk.ptsIndex)) :=
    List.perm_insertionSort byDts _
  have hhead : ((st.videoSamples.drop lk.ptsIndex).take (E - lk.ptsIndex)).head? =
      some (st.videoSamples[lk.ptsIndex]) :=
    slice_head? st.videoSamples lk.ptsIndex (E - lk.ptsIndex) hlklen (by omega)
  obtain ⟨_, hlkat⟩ := ptsIndexed_mem hpts hlkmem
  rw [hlkat] at hhead
  have hlkslice : lk ∈ (st.videoSamples.drop lk.ptsIndex).take (E - lk.ptsIndex) := by
    rcases hsl : (st.videoSamples.drop lk.ptsIndex).take (E - lk.ptsIndex) with _ | ⟨y, ys⟩
    · rw [hsl] at hhead
      simp at hhead
    · rw [hsl, List.head?_cons] at hhead
      simp only [Option.some.injEq] at hhead
      subst hhead
      exact List.mem_cons_self y ys
  refine ⟨_, hseek, ?_, lk, hperm.mem_iff.mpr hlkslice, hlksync, ?_⟩
  · intro hnil
    have hnil2 : List.insertionSort byDts
        ((st.videoSamples.drop lk.ptsIndex).take (E - lk.ptsIndex)) = [] := hnil
    have hmem2 := hperm.mem_iff.mpr hlkslice
    rw [hnil2] at hmem2
    simp at hmem2
  · intro x hx
    have hxslice := hperm.mem_iff.mp hx
    exact (slice_mem_spec st.videoSamples hpts lk.ptsIndex (E - lk.ptsIndex) hxslice).2

/-- C2 witness: seeking into the non-sync sample 5 of the single-keyframe
17-sample file. -/
theorem seek_nonsync_window_head_keyframe_witness :
    ∃ w, demoDepthSeek.seek 550 = Except.ok w ∧ w.samples ≠ [] ∧
      ∃ k ∈ w.samples, k.is_sync = true ∧ ∀ x ∈ w.samples, k.ptsIndex ≤ x.ptsIndex :=
  seek_nonsync_window_head_keyframe demoDepthSeek 550
    (by decide) rfl (by decide) (by decide) (by decide)

/-- C2, counterexample to the claim as stated: in the 16-sample file with
keyframes at presentation indices 0 and 15, seeking to `1550ms` resolves the
sync target frame 15; the returned window is `slice(5, 15)` and its first
sample (index 5) is not a sync sample, so `window[0].isSyncSample` is false
for this successful seek. -/
theorem seek_sync_window_head_cex :
    (demoKeySeek.seek 1550).toOption.map
        (fun w => (w.ptsIndex, w.samples.head?.map (fun s => (s.ptsIndex, s.is_sync)))) =
      some (15, some (5, false)) ∧
    (demoKeySeek.videoSamples.getD 15 default).is_sync = true := by
  decide

/-- C3, amended (the source's window slice excludes its clamped end index
`min(max(nextKeyframe ?? 0, targetFrame, lastKeyframe + Q), totalSamples - 1)`,
so the guaranteed depth is one less than claimed when the clamp binds): for
every successful `seek(t)` through the non-keyframe branch, the returned
window has exactly `endIndex - lastKeyframeIndex` samples, where `endIndex`
is the clamped exclusive end above, and therefore
`window.length ≥ min(Q, totalSamples - 1 - lastKeyframeIndex)` with `Q = 20`. -/
theorem seek_nonsync_window_depth (st : DemuxState) (t : ℚ)
    (hpts : ptsIndexed st.videoSamples)
    (hTrak : st.videoTrak = true)
    (hne : st.timestampMsToPtsIndex t ≠ -1)
    (hns : (st.videoSamples.getD (st.timestampMsToPtsIndex t).toNat default).is_sync = false)
    (hlk : (st.videoSamples.take
        ((st.videoSamples.getD (st.timestampMsToPtsIndex t).toNat default).ptsIndex)).filter
          (fun f => f.is_sync) ≠ []) :
    ∃ (w : SeekReturn) (fr lk : IndexedMP4Sample),
      st.seek t = Except.ok w ∧
      ((st.videoSamples.take fr.ptsIndex).filter (fun f => f.is_sync)).getLast? = some lk ∧
      w.samples.length =
        min (max (max ((((st.videoSamples.drop fr.ptsIndex).find? (fun f => f.is_sync)).map
                (fun f => f.ptsIndex)).getD 0)
              fr.ptsIndex) (lk.ptsIndex + MIN_DECODER_QUEUE_SIZE))
          (st.videoSamples.length - 1) - lk.ptsIndex ∧
      min MIN_DECODER_QUEUE_SIZE (st.videoSamples.length - 1 - lk.ptsIndex) ≤
        w.samples.length := by
  obtain ⟨fr, lk, E, hlkmem, hlksync, hlkfr, hfrlen, hlkeq, hE, hseek⟩ :=
    seek_nonsync_main st t hpts hTrak hne hns hlk
  have hQ : MIN_DECODER_QUEUE_SIZE = 20 := rfl
  have hlklen : lk.ptsIndex < st.videoSamples.length := Nat.lt_trans hlkfr hfrlen
  have hlensort :
      (List.insertionSort byDts
        ((st.videoSamples.drop lk.ptsIndex).take (E - lk.ptsIndex))).length =
      ((st.videoSamples.drop lk.ptsIndex).take (E - lk.ptsIndex)).length :=
    List.length_insertionSort byDts _
  have hlenslice : ((st.videoSamples.drop lk.ptsIndex).take (E - lk.ptsIndex)).length =
      E - lk.ptsIndex := by
    simp only [List.length_take, List.length_drop]
    rw [hE, hQ]
    omega
  refine ⟨_, fr, lk, hseek, hlkeq, ?_, ?_⟩
  · show (List.insertionSort byDts _).length = _
    rw [hlensort, hlenslice, hE]
  · show _ ≤ (List.insertionSort byDts _).length
    rw [hlensort, hlenslice, hE, hQ]
    omega

/-- C3 witness: seeking into the non-sync sample 5 of the single-keyframe
17-sample file (whose window is `slice(0, 16)`, 16 samples). -/
theorem seek_nonsync_window_depth_witness :
    ∃ (w : SeekReturn) (fr lk : IndexedMP4Sample),
      demoDepthSeek.seek 550 = Except.ok w ∧
      ((demoDepthSeek.videoSamples.take fr.ptsIndex).filter (fun f => f.is_sync)).getLast? =
        some lk ∧
      w.samples.length =
        min (max (max ((((demoDepthSeek.videoSamples.drop fr.ptsIndex).find?
                  (fun f => f.is_sync)).map (fun f => f.ptsIndex)).getD 0)
              fr.ptsIndex) (lk.ptsIndex + MIN_DECODER_QUEUE_SIZE))
          (demoDepthSeek.videoSamples.length - 1) - lk.ptsIndex ∧
      min MIN_DECODER_QUEUE_SIZE (demoDepthSeek.videoSamples.length - 1 - lk.ptsIndex) ≤
        w.samples.length :=
  seek_nonsync_window_depth demoDepthSeek 550
    (by decide) rfl (by decide) (by decide) (by decide)

/-- C3, counterexample to the claim as stated: in the 17-sample file whose
only keyframe is sample 0, seeking to `550ms` returns a window of 16 samples,
but the claim's bound demands
`min(Q, totalSamples - lastKeyframeIndex) = min(20, 17 - 0) = 17`. -/
theorem seek_window_depth_cex :
    (demoDepthSeek.seek 550).toOption.map (fun w => w.samples.length) = some 16 ∧
    demoDepthSeek.videoSamples.length = 17 ∧
    ((demoDepthSeek.videoSamples.take 5).filter (fun f => f.is_sync)).getLast?.map
        (fun f => f.ptsIndex) = some 0 ∧
    ¬ (min MIN_DECODER_QUEUE_SIZE (17 - 0) ≤ 16) := by
  decide

/-! ### C7: bijective indexing -/

lemma attachPtsIndexes_length (i : Nat) (l : List MP4Sample) :
    (attachPtsIndexes i l).length = l.length := by
  induction l generalizing i with
  | nil => rfl
  | cons s rest ih => simp [attachPtsIndexes, ih]

lemma attachPtsIndexes_getElem : ∀ (i : Nat) (l : List MP4Sample) (j : Nat)
    (hj : j < (attachPtsIndexes i l).length) (hj2 : j < l.length),
    (attachPtsIndexes i l)[j] =
      { toMP4Sample := l[j], ptsIndex := i + j, dtsIndex := l[j].number }
  | _, s :: rest, 0, _, _ => by simp [attachPtsIndexes]
  | i, s :: rest, j + 1, hj, hj2 => by
    have hj' : j < (attachPtsIndexes (i + 1) rest).length := by
      simpa [attachPtsIndexes] using hj
    have hj2' : j < rest.length := by simpa using hj2
    simp only [attachPtsIndexes, List.getElem_cons_succ]
    rw [attachPtsIndexes_getElem (i + 1) rest j hj' hj2']
    have harith : i + 1 + j = i + (j + 1) := by omega
    rw [harith]

lemma attachPtsIndexes_map_toSample (i : Nat) (l : List MP4Sample) :
    (attachPtsIndexes i l).map (fun s => s.toMP4Sample) = l := by
  induction l generalizing i with
  | nil => rfl
  | cons s rest ih => simp [attachPtsIndexes, ih]

lemma attachPtsIndexes_map_dtsIndex (i : Nat) (l : List MP4Sample) :
    (attachPtsIndexes i l).map (fun s => s.dtsIndex) = l.map (fun s => s.number) := by
  induction l generalizing i with
  | nil => rfl
  | cons s rest ih => simp [attachPtsIndexes, ih]

lemma attachPtsIndexes_map_ptsIndex (i : Nat) (l : List MP4Sample) :
    (attachPtsIndexes i l).map (fun s => s.ptsIndex) = List.range' i l.length := by
  induction l generalizing i with
  | nil => rfl
  | cons s rest ih => simp [attachPtsIndexes, ih, List.range'_succ]

/-- `onReady`'s indexing assigns each sample its position as `ptsIndex`. -/
lemma ptsIndexed_indexSamples (l : List MP4Sample) : ptsIndexed (indexSamples l) := by
  intro j hj
  have hj' : j < (attachPtsIndexes 0 (List.insertionSort byCts l)).length := hj
  have hj2 : j < (List.insertionSort byCts l).length := by
    rw [attachPtsIndexes_length] at hj'
    exact hj'
  have hj3 : j < (attachPtsIndexes 0 (List.insertionSort byCts l)).length := hj
  show (attachPtsIndexes 0 (List.insertionSort byCts l))[j].ptsIndex = j
  rw [attachPtsIndexes_getElem 0 _ j hj3 hj2]
  simp

/-- The first element satisfying a predicate whose earlier elements all fail
it is what `find?` returns. -/
lemma find?_of_first {α : Type} (p : α → Bool) :
    ∀ (L : List α) (i : Nat) (hi : i < L.length),
      p (L[i]) = true → (∀ j (hj : j < L.length), j < i → p (L[j]) = false) →
      L.find? p = some (L[i])
  | a :: t, 0, _, hp, _ => List.find?_cons_of_pos t hp
  | a :: t, i + 1, hi, hp, hprev => by
    have h0 : p a = false := by
      have := hprev 0 (by omega) (by omega)
      simpa using this
    rw [List.find?_cons_of_neg t (by simp [h0])]
    have hi' : i < t.length := by simpa using hi
    have hp' : p (t[i]) = true := by simpa using hp
    rw [find?_of_first p t i hi' hp' (fun j hj hji => by
      have := hprev (j + 1) (by omega) (by omega)
      simpa using this)]
    simp

/-- Under the indexing invariant, searching by `ptsIndex` finds exactly the
sample at that position. -/
lemma find?_ptsIndex_eq (L : List IndexedMP4Sample) (hpts : ptsIndexed L) (x : Nat)
    (hx : x < L.length) :
    L.find? (fun s => decide (s.ptsIndex = x)) = some (L[x]) := by
  apply find?_of_first
  · simp [hpts x hx]
  · intro j hj hjx
    simp only [hpts j hj, decide_eq_false_iff_not]
    omega

/-- With pairwise-distinct `dtsIndex` values, searching by a member's
`dtsIndex` finds exactly that member. -/
lemma find?_dtsIndex_eq (L : List IndexedMP4Sample)
    (hnodup : (L.map (fun s => s.dtsIndex)).Nodup) (y : IndexedMP4Sample) (hy : y ∈ L) :
    L.find? (fun s => decide (s.dtsIndex = y.dtsIndex)) = some y := by
  rcases hf : L.find? (fun s => decide (s.dtsIndex = y.dtsIndex)) with _ | z
  · rw [List.find?_eq_none] at hf
    exact absurd (by simp) (hf y hy)
  · have hz := List.find?_some hf
    simp only [decide_eq_true_eq] at hz
    have hzmem := List.mem_of_find?_eq_some hf
    rw [hf]
    exact congrArg some (List.inj_on_of_nodup_map hnodup hzmem hy hz)

lemma ptsIndexToDtsIndex_of_find? (st : DemuxState) (x : Nat) (y : IndexedMP4Sample)
    (h : st.videoSamples.find? (fun s => decide (s.ptsIndex = x)) = some y) :
    st.ptsIndexToDtsIndex x = (y.dtsIndex : Int) := by
  rw [DemuxState.ptsIndexToDtsIndex, h]

lemma dtsIndexToPtsIndex_of_find? (st : DemuxState) (x : Nat) (y : IndexedMP4Sample)
    (h : st.videoSamples.find? (fun s => decide (s.dtsIndex = x)) = some y) :
    st.dtsIndexToPtsIndex x = (y.ptsIndex : Int) := by
  rw [DemuxState.dtsIndexToPtsIndex, h]

/-- C7: once `onReady`'s indexing completes on a track whose decode-ordered
samples are numbered `0, 1, 2, …` (mp4box file decode order), the `ptsIndex`
values are exactly `[0, count)` in order, the `dtsIndex` values are a
permutation of `[0, count)`, composition timestamps are non-decreasing
across increasing `ptsIndex`, and `ptsIndexToDtsIndex` and
`dtsIndexToPtsIndex` are mutually inverse total bijections of `[0, count)`. -/
theorem indexing_bijective (trakSamples : List MP4Sample) (config : VideoDecoderConfig)
    (hnum : ∀ i (hi : i < trakSamples.length), trakSamples[i].number = i) :
    ((DemuxState.afterIndexing trakSamples config).videoSamples.map (fun s => s.ptsIndex) =
      List.range trakSamples.length) ∧
    (((DemuxState.afterIndexing trakSamples config).videoSamples.map (fun s => s.dtsIndex)).Perm
      (List.range trakSamples.length)) ∧
    ((DemuxState.afterIndexing trakSamples config).videoSamples.Pairwise
      (fun a b => a.cts ≤ b.cts)) ∧
    (∀ x, x < trakSamples.length →
      ∃ d, d < trakSamples.length ∧
        (DemuxState.afterIndexing trakSamples config).ptsIndexToDtsIndex x = (d : Int) ∧
        (DemuxState.afterIndexing trakSamples config).dtsIndexToPtsIndex d = (x : Int)) ∧
    (∀ x, x < trakSamples.length →
      ∃ p, p < trakSamples.length ∧
        (DemuxState.afterIndexing trakSamples config).dtsIndexToPtsIndex x = (p : Int) ∧
        (DemuxState.afterIndexing trakSamples config).ptsIndexToDtsIndex p = (x : Int)) := by
  have hlenL : (indexSamples trakSamples).length = trakSamples.length := by
    rw [indexSamples, attachPtsIndexes_length, List.length_insertionSort]
  have hpts : ptsIndexed (indexSamples trakSamples) := ptsIndexed_indexSamples trakSamples
  have hmapnum : trakSamples.map (fun s => s.number) = List.range trakSamples.length := by
    apply List.ext_getElem (by simp)
    intro i h1 h2
    have h1' : i < trakSamples.length := by simpa using h1
    simp only [List.getElem_map, hnum i h1', List.getElem_range]
  have hpermSort : List.Perm (List.insertionSort byCts trakSamples) trakSamples :=
    List.perm_insertionSort byCts trakSamples
  have hmapDts : (indexSamples trakSamples).map (fun s => s.dtsIndex) =
      (List.insertionSort byCts trakSamples).map (fun s => s.number) := by
    rw [indexSamples, attachPtsIndexes_map_dtsIndex]
  have hpermDts : ((indexSamples trakSamples).map (fun s => s.dtsIndex)).Perm
      (List.range trakSamples.length) := by
    rw [hmapDts, ← hmapnum]
    exact hpermSort.map (fun s => s.number)
  have hnodup : ((indexSamples trakSamples).map (fun s => s.dtsIndex)).Nodup :=
    hpermDts.nodup_iff.mpr (List.nodup_range trakSamples.length)
  refine ⟨?_, hpermDts, ?_, ?_, ?_⟩
  · show (indexSamples trakSamples).map (fun s => s.ptsIndex) = _
    rw [indexSamples, attachPtsIndexes_map_ptsIndex, List.length_insertionSort,
      List.range_eq_range' trakSamples.length]
  · show (indexSamples trakSamples).Pairwise (fun a b => a.cts ≤ b.cts)
    have hmapS : (indexSamples trakSamples).map (fun s => s.toMP4Sample) =
        List.insertionSort byCts trakSamples := by
      rw [indexSamples, attachPtsIndexes_map_toSample]
    have hsorted := List.sorted_insertionSort byCts trakSamples
    rw [← hmapS] at hsorted
    exact (List.pairwise_map (f := fun s : IndexedMP4Sample => s.toMP4Sample)).mp hsorted
  · intro x hx
    have hxL : x < (indexSamples trakSamples).length := by omega
    have hfind1 := find?_ptsIndex_eq (indexSamples trakSamples) hpts x hxL
    have hdmem : ((indexSamples trakSamples)[x]).dtsIndex ∈
        (indexSamples trakSamples).map (fun s => s.dtsIndex) :=
      List.mem_map_of_mem _ (List.getElem_mem hxL)
    have hdn : ((indexSamples trakSamples)[x]).dtsIndex < trakSamples.length :=
      List.mem_range.mp (hpermDts.mem_iff.mp hdmem)
    have hfind2 := find?_dtsIndex_eq (indexSamples trakSamples) hnodup
      ((indexSamples trakSamples)[x]) (List.getElem_mem hxL)
    refine ⟨((indexSamples trakSamples)[x]).dtsIndex, hdn,
      ptsIndexToDtsIndex_of_find? _ x _ hfind1, ?_⟩
    rw [dtsIndexToPtsIndex_of_find? _ _ _ hfind2, hpts x hxL]
  · intro x hx
    have hxmapd : x ∈ (indexSamples trakSamples).map (fun s => s.dtsIndex) :=
      hpermDts.mem_iff.mpr (List.mem_range.mpr hx)
    obtain ⟨y, hyL, hyd⟩ := List.mem_map.mp hxmapd
    obtain ⟨hyp, hyat⟩ := ptsIndexed_mem hpts hyL
    have hfind3 : (indexSamples trakSamples).find? (fun s => decide (s.dtsIndex = x)) =
        some y := by
      rw [← hyd]
      exact find?_dtsIndex_eq (indexSamples trakSamples) hnodup y hyL
    have hfind4 := find?_ptsIndex_eq (indexSamples trakSamples) hpts y.ptsIndex hyp
    refine ⟨y.ptsIndex, by omega, dtsIndexToPtsIndex_of_find? _ x y hfind3, ?_⟩
    rw [ptsIndexToDtsIndex_of_find? _ y.ptsIndex (indexSamples trakSamples)[y.ptsIndex] hfind4,
      hyat, hyd]

/-- C7 witness: a three-sample track in decode order `0, 1, 2` whose middle
sample presents last (`cts` values `0, 200, 100`), exercising a genuine
reordering between decode and presentation order. -/
theorem indexing_bijective_witness :
    ((DemuxState.afterIndexing demoTrakSamples demoConfig).videoSamples.map
        (fun s => s.ptsIndex) = List.range demoTrakSamples.length) ∧
    (((DemuxState.afterIndexing demoTrakSamples demoConfig).videoSamples.map
        (fun s => s.dtsIndex)).Perm (List.range demoTrakSamples.length)) ∧
    ((DemuxState.afterIndexing demoTrakSamples demoConfig).videoSamples.Pairwise
      (fun a b => a.cts ≤ b.cts)) ∧
    (∀ x, x < demoTrakSamples.length →
      ∃ d, d < demoTrakSamples.length ∧
        (DemuxState.afterIndexing demoTrakSamples demoConfig).ptsIndexToDtsIndex x = (d : Int) ∧
        (DemuxState.afterIndexing demoTrakSamples demoConfig).dtsIndexToPtsIndex d = (x : Int)) ∧
    (∀ x, x < demoTrakSamples.length →
      ∃ p, p < demoTrakSamples.length ∧
        (DemuxState.afterIndexing demoTrakSamples demoConfig).dtsIndexToPtsIndex x = (p : Int) ∧
        (DemuxState.afterIndexing demoTrakSamples demoConfig).ptsIndexToDtsIndex p = (x : Int)) :=
  indexing_bijective demoTrakSamples demoConfig (by decide)

end MP4Writer
